import Mathlib

/-!
Verification of `list_github_workflow_and_dependency_files.py`.

The script clones (or pulls) a git repository, walks its file tree, and
lists workflow files (paths starting with `.github/workflows` whose
filename ends in `.yml` or `.yaml`) and dependency files (filename equal
to one of twelve manifest names).

Strings are modelled by their character lists (`String.data`); the Python
string methods used by the script (`startswith`, `endswith`, `rstrip`,
`split`, `replace`, `in`) are given explicit executable definitions with
Python semantics.  The directory walk is modelled by the list of relative
paths of the regular files, in traversal order; `os.walk` yields each
file's basename separately, which for real paths (whose components
contain no separator) equals the part of the relative path after the last
slash, so the basename is recovered by `fileName`.
-/

/-- Python `pat`-is-a-prefix test on character lists: `isPrefixB pat s`
is `true` iff `s` starts with `pat`. -/
def isPrefixB : List Char → List Char → Bool
  | [], _ => true
  | _ :: _, [] => false
  | a :: as, b :: bs => a == b && isPrefixB as bs

/-- Python `s.startswith(pre)`. -/
def pyStartswith (s pre : String) : Bool := isPrefixB pre.data s.data

/-- Suffix test on character lists (`endsB suf l` iff `l` ends with `suf`). -/
def endsB (suf l : List Char) : Bool := isPrefixB suf.reverse l.reverse

/-- Python `s.endswith(suf)`. -/
def pyEndswith (s suf : String) : Bool := endsB suf.data s.data

/-- Python `s.rstrip(c)` for a single strip character: remove every
trailing occurrence of `c`. -/
def pyRstrip (c : Char) (l : List Char) : List Char :=
  (l.reverse.dropWhile (fun a => a == c)).reverse

/-- Python `s.split(c)` for a one-character separator: splits on every
occurrence, keeping empty fields (`"".split(c) == [""]`). -/
def splitOnChar (c : Char) : List Char → List (List Char)
  | [] => [[]]
  | a :: as =>
    let r := splitOnChar c as
    if a == c then [] :: r
    else
      match r with
      | [] => [[a]]
      | h :: t => (a :: h) :: t

/-- Worker for Python `s.replace(old, new)`: scans left to right; a
positive skip count means we are inside a matched occurrence whose
remaining characters are consumed without being emitted. -/
def pyReplaceAux (old new : List Char) : Nat → List Char → List Char
  | _, [] => []
  | Nat.succ k, _ :: as => pyReplaceAux old new k as
  | 0, a :: as =>
    if isPrefixB old (a :: as) then
      new ++ pyReplaceAux old new (old.length - 1) as
    else
      a :: pyReplaceAux old new 0 as

/-- Python `s.replace(old, new)`: every non-overlapping occurrence of
`old`, scanning left to right, is replaced by `new`. -/
def pyReplace (old new l : List Char) : List Char := pyReplaceAux old new 0 l

/-- Line 10 of the script:
`REPO_NAME = REPO_URL.rstrip("/").split("/")[-1].replace(".git", "")`. -/
def repoName (url : String) : String :=
  String.mk (pyReplace ".git".data [] ((splitOnChar '/' (pyRstrip '/' url.data)).getLastD []))

/-- Lines 11-15 of the script: the fixed dependency-manifest filenames. -/
def DEPENDENCY_FILES : List String :=
  ["package.json", "requirements.txt", "Pipfile",
   "yarn.lock", "poetry.lock", "Gemfile", "composer.json",
   "Cargo.toml", "go.mod", "environment.yml", "env.yml", "setup.py"]

/-- Line 16 of the script. -/
def WORKFLOW_DIR : String := ".github/workflows"

/-- The slash-separated components of a relative path. -/
def pathComponents (p : String) : List String :=
  (splitOnChar '/' p.data).map String.mk

/-- The basename of a relative path (the `file` variable of the walk loop:
`os.walk` yields basenames, which equal the final slash-separated
component of the relative path). -/
def fileName (p : String) : String := (pathComponents p).getLastD ""

/-- Line 38 of the script:
`rel_path.startswith(WORKFLOW_DIR) and file.endswith(('.yml', '.yaml'))`. -/
def isWorkflowFile (relPath : String) : Bool :=
  pyStartswith relPath WORKFLOW_DIR &&
    (pyEndswith (fileName relPath) ".yml" || pyEndswith (fileName relPath) ".yaml")

/-- Line 40 of the script: `file in DEPENDENCY_FILES`. -/
def isDependencyFile (relPath : String) : Bool :=
  DEPENDENCY_FILES.contains (fileName relPath)

/-- Lines 33-41 of the script: the walk loop.  Input: the relative paths
of the regular files in traversal order.  Output: the `workflow_files`
and `dependency_files` accumulators, in append order. -/
def classify : List String → List String × List String
  | [] => ([], [])
  | p :: rest =>
    let r := classify rest
    (if isWorkflowFile p then p :: r.1 else r.1,
     if isDependencyFile p then p :: r.2 else r.2)

/-- Lines 43-55 of the script: the report, as the list of strings passed
to `print`, in order. -/
def report (workflow_files dependency_files : List String) : List String :=
  (["\nWorkflow files found:"] ++
    (if workflow_files.isEmpty then ["  (none found)"]
     else workflow_files.map (fun wf => "  - " ++ wf))) ++
  (["\nDependency files found:"] ++
    (if dependency_files.isEmpty then ["  (none found)"]
     else dependency_files.map (fun df => "  - " ++ df)))

/-- The script's environment: the first command-line argument (if any),
the `os.path.exists` oracle, the exit codes the two possible `git`
subprocesses would return, and the walk's file list (relative paths in
traversal order). -/
structure Env where
  argv1 : Option String
  pathExists : String → Bool
  cloneExitCode : Nat
  pullExitCode : Nat
  tree : List String

/-- Result of one run of the script: process exit code (0 when the
script falls off the end), the strings printed, and the subprocess
command lines invoked, in order. -/
structure RunResult where
  exitCode : Nat
  output : List String
  commands : List (List String)
deriving DecidableEq

/-- The whole script, lines 5-55: argument check, clone-or-pull with its
exit codes, then classification and report. -/
def runScript (env : Env) : RunResult :=
  match env.argv1 with
  | none =>
    ⟨1, ["Usage: python list_github_workflow_and_dependency_files.py <repo_url>"], []⟩
  | some url =>
    if url = "" then
      ⟨1, ["Usage: python list_github_workflow_and_dependency_files.py <repo_url>"], []⟩
    else
      let name := repoName url
      if !env.pathExists name then
        let out := ["Cloning repository " ++ url ++ " ..."]
        let cmds := [["git", "clone", "--depth", "1", url]]
        if env.cloneExitCode ≠ 0 then
          ⟨2, out ++ ["Failed to clone repository."], cmds⟩
        else
          let r := classify env.tree
          ⟨0, out ++ report r.1 r.2, cmds⟩
      else
        let out := ["Repository " ++ name ++ " already exists. Pulling latest changes ..."]
        let cmds := [["git", "-C", name, "pull"]]
        if env.pullExitCode ≠ 0 then
          ⟨3, out ++ ["Failed to pull latest changes."], cmds⟩
        else
          let r := classify env.tree
          ⟨0, out ++ report r.1 r.2, cmds⟩

/-- Name derivation exactly as the spec words it: the URL's final path
segment (after discarding trailing slashes) with a `.git` suffix, and
only a suffix, removed. -/
def specLocalName (url : String) : String :=
  let seg := (splitOnChar '/' (pyRstrip '/' url.data)).getLastD []
  if endsB ".git".data seg then String.mk (seg.take (seg.length - 4))
  else String.mk seg


theorem classify_fst_eq_filter (l : List String) :
    (classify l).1 = l.filter isWorkflowFile := by
  induction l with
  | nil => rfl
  | cons p rest ih => simp [classify, List.filter_cons, ih]

theorem classify_snd_eq_filter (l : List String) :
    (classify l).2 = l.filter isDependencyFile := by
  induction l with
  | nil => rfl
  | cons p rest ih => simp [classify, List.filter_cons, ih]

theorem count_filter_ite (q : String → Bool) (l : List String) (p : String) :
    (l.filter q).count p = if q p = true then l.count p else 0 := by
  induction l with
  | nil => simp
  | cons a as ih =>
    by_cases hpa : p = a
    · subst hpa
      by_cases hq : q p = true
      · simp [List.filter_cons, hq, List.count_cons, ih]
      · simp [List.filter_cons, hq, List.count_cons, ih]
    · by_cases hq : q a = true
      · simp [List.filter_cons, hq, List.count_cons, Ne.symm hpa, ih]
      · simp [List.filter_cons, hq, List.count_cons, Ne.symm hpa, ih]

theorem isDependencyFile_iff (p : String) :
    isDependencyFile p = true ↔
      fileName p ∈
        ["package.json", "requirements.txt", "Pipfile",
         "yarn.lock", "poetry.lock", "Gemfile", "composer.json",
         "Cargo.toml", "go.mod", "environment.yml", "env.yml", "setup.py"] := by
  simp [isDependencyFile, DEPENDENCY_FILES, List.contains, List.elem_iff]

theorem isWorkflowFile_iff (p : String) :
    isWorkflowFile p = true ↔
      pyStartswith p WORKFLOW_DIR = true ∧
        (pyEndswith (fileName p) ".yml" = true ∨ pyEndswith (fileName p) ".yaml" = true) := by
  simp [isWorkflowFile, Bool.and_eq_true, Bool.or_eq_true]

/-- C10: classification is pointwise: the number of occurrences of a path
in the workflow-file (resp. dependency-file) sequence is its number of
occurrences in the walk, kept or zeroed according to a predicate of that
path alone, so unrelated files cannot change membership or
multiplicity. -/
theorem classify_pointwise (paths : List String) (q : String) :
    List.count q (classify paths).1 =
      (if isWorkflowFile q = true then List.count q paths else 0) ∧
    List.count q (classify paths).2 =
      (if isDependencyFile q = true then List.count q paths else 0) :=
  ⟨by rw [classify_fst_eq_filter, count_filter_ite],
   by rw [classify_snd_eq_filter, count_filter_ite]⟩

/-- C4: for a walk visiting each file once, a path is appended to the
workflow-file sequence exactly once iff it begins with the literal prefix
`.github/workflows` and its filename ends with `.yml` or `.yaml`;
`.github/workflows/ci.yml` satisfies the condition and
`.github/workflows/notes.txt` does not. -/
theorem workflow_exactly_once (paths : List String) (hnd : paths.Nodup)
    (p : String) (hp : p ∈ paths) :
    (List.count p (classify paths).1 =
      if pyStartswith p WORKFLOW_DIR = true ∧
          (pyEndswith (fileName p) ".yml" = true ∨ pyEndswith (fileName p) ".yaml" = true)
      then 1 else 0) ∧
    isWorkflowFile ".github/workflows/ci.yml" = true ∧
    isWorkflowFile ".github/workflows/notes.txt" = false := by
  refine ⟨?_, by decide, by decide⟩
  rw [classify_fst_eq_filter, count_filter_ite, List.count_eq_one_of_mem hnd hp]
  by_cases hb : isWorkflowFile p = true
  · rw [if_pos hb, if_pos ((isWorkflowFile_iff p).mp hb)]
  · rw [if_neg hb, if_neg (fun hc => hb ((isWorkflowFile_iff p).mpr hc))]

/-- C4 witness. -/
theorem workflow_exactly_once_check :
    (List.count ".github/workflows/ci.yml"
        (classify [".github/workflows/ci.yml", ".github/workflows/notes.txt"]).1 =
      if pyStartswith ".github/workflows/ci.yml" WORKFLOW_DIR = true ∧
          (pyEndswith (fileName ".github/workflows/ci.yml") ".yml" = true ∨
            pyEndswith (fileName ".github/workflows/ci.yml") ".yaml" = true)
      then 1 else 0) ∧
    isWorkflowFile ".github/workflows/ci.yml" = true ∧
    isWorkflowFile ".github/workflows/notes.txt" = false :=
  workflow_exactly_once [".github/workflows/ci.yml", ".github/workflows/notes.txt"]
    (by decide) ".github/workflows/ci.yml" (by decide)

/-- C5: for a walk visiting each file once, a path is appended to the
dependency-file sequence exactly once iff its final path component
exactly equals one of the twelve manifest names, at any depth;
`sub/dir/package.json` satisfies the condition. -/
theorem dependency_exactly_once (paths : List String) (hnd : paths.Nodup)
    (p : String) (hp : p ∈ paths) :
    (List.count p (classify paths).2 =
      if fileName p ∈
          ["package.json", "requirements.txt", "Pipfile",
           "yarn.lock", "poetry.lock", "Gemfile", "composer.json",
           "Cargo.toml", "go.mod", "environment.yml", "env.yml", "setup.py"]
      then 1 else 0) ∧
    isDependencyFile "sub/dir/package.json" = true ∧
    fileName "sub/dir/package.json" = "package.json" := by
  refine ⟨?_, by decide, by decide⟩
  rw [classify_snd_eq_filter, count_filter_ite, List.count_eq_one_of_mem hnd hp]
  by_cases hb : isDependencyFile p = true
  · rw [if_pos hb, if_pos ((isDependencyFile_iff p).mp hb)]
  · rw [if_neg hb, if_neg (fun hc => hb ((isDependencyFile_iff p).mpr hc))]

/-- C5 witness. -/
theorem dependency_exactly_once_check :
    (List.count "sub/dir/package.json" (classify ["sub/dir/package.json"]).2 =
      if fileName "sub/dir/package.json" ∈
          ["package.json", "requirements.txt", "Pipfile",
           "yarn.lock", "poetry.lock", "Gemfile", "composer.json",
           "Cargo.toml", "go.mod", "environment.yml", "env.yml", "setup.py"]
      then 1 else 0) ∧
    isDependencyFile "sub/dir/package.json" = true ∧
    fileName "sub/dir/package.json" = "package.json" :=
  dependency_exactly_once ["sub/dir/package.json"] (by decide)
    "sub/dir/package.json" (by decide)

/-- C8: an empty walk yields two empty sequences, and the report then
consists of the two section labels each followed by the placeholder line
and no path lines. -/
theorem empty_tree_report :
    classify [] = ([], []) ∧
    report (classify []).1 (classify []).2 =
      ["\nWorkflow files found:", "  (none found)",
       "\nDependency files found:", "  (none found)"] := by
  exact ⟨rfl, rfl⟩

/-- C9: an empty-string URL argument behaves exactly like a missing
argument: same run as with no argument, usage message printed, exit
status 1, and no subprocess invoked. -/
theorem empty_url_usage_error (env : Env) (h : env.argv1 = some "") :
    runScript env =
      runScript ⟨none, env.pathExists, env.cloneExitCode, env.pullExitCode, env.tree⟩ ∧
    (runScript env).exitCode = 1 ∧
    (runScript env).output =
      ["Usage: python list_github_workflow_and_dependency_files.py <repo_url>"] ∧
    (runScript env).commands = [] := by
  obtain ⟨a, pe, ce, pu, tr⟩ := env
  cases h
  exact ⟨rfl, rfl, rfl, rfl⟩

/-- C9 witness. -/
theorem empty_url_usage_error_check :
    runScript ⟨some "", fun _ => false, 0, 0, []⟩ =
      runScript ⟨none, fun _ => false, 0, 0, []⟩ ∧
    (runScript ⟨some "", fun _ => false, 0, 0, []⟩).exitCode = 1 ∧
    (runScript ⟨some "", fun _ => false, 0, 0, []⟩).output =
      ["Usage: python list_github_workflow_and_dependency_files.py <repo_url>"] ∧
    (runScript ⟨some "", fun _ => false, 0, 0, []⟩).commands = [] :=
  empty_url_usage_error ⟨some "", fun _ => false, 0, 0, []⟩ rfl

/-- C7: with a URL argument given, if the derived local name exists on
disk (whatever it is), the run invokes exactly the pull command and never
the clone command; if it does not exist, the run invokes exactly the
shallow depth-1 clone command. -/
theorem pull_when_present_clone_when_absent (env : Env) (url : String)
    (h1 : env.argv1 = some url) (h2 : url ≠ "") :
    (env.pathExists (repoName url) = true →
      (runScript env).commands = [["git", "-C", repoName url, "pull"]]) ∧
    (env.pathExists (repoName url) = false →
      (runScript env).commands = [["git", "clone", "--depth", "1", url]]) := by
  obtain ⟨a, pe, ce, pu, tr⟩ := env
  cases h1
  refine ⟨fun hex => ?_, fun hex => ?_⟩
  · have hex' : pe (repoName url) = true := hex
    by_cases hp : pu = 0 <;> simp [runScript, h2, hex', hp]
  · have hex' : pe (repoName url) = false := hex
    by_cases hc : ce = 0 <;> simp [runScript, h2, hex', hc]

/-- C7 witness. -/
theorem pull_when_present_clone_when_absent_check :
    ((fun _ => true : String → Bool) (repoName "u") = true →
      (runScript ⟨some "u", fun _ => true, 0, 0, []⟩).commands =
        [["git", "-C", repoName "u", "pull"]]) ∧
    ((fun _ => true : String → Bool) (repoName "u") = false →
      (runScript ⟨some "u", fun _ => true, 0, 0, []⟩).commands =
        [["git", "clone", "--depth", "1", "u"]]) :=
  pull_when_present_clone_when_absent ⟨some "u", fun _ => true, 0, 0, []⟩ "u"
    rfl (by decide)

/-- C6: exit status 0 on success, 1 when no URL argument is supplied, 2
when the clone subprocess exits non-zero, 3 when the pull subprocess
exits non-zero; each failure is fatal: the printed output is exactly the
diagnostic lines, with no classification or report performed
afterwards (on success the output continues with the report). -/
theorem script_exit_codes (env : Env) (url : String) :
    (env.argv1 = none →
      runScript env =
        ⟨1, ["Usage: python list_github_workflow_and_dependency_files.py <repo_url>"], []⟩) ∧
    (env.argv1 = some url → url ≠ "" → env.pathExists (repoName url) = false →
      env.cloneExitCode ≠ 0 →
      runScript env =
        ⟨2, ["Cloning repository " ++ url ++ " ...", "Failed to clone repository."],
         [["git", "clone", "--depth", "1", url]]⟩) ∧
    (env.argv1 = some url → url ≠ "" → env.pathExists (repoName url) = true →
      env.pullExitCode ≠ 0 →
      runScript env =
        ⟨3, ["Repository " ++ repoName url ++ " already exists. Pulling latest changes ...",
             "Failed to pull latest changes."],
         [["git", "-C", repoName url, "pull"]]⟩) ∧
    (env.argv1 = some url → url ≠ "" → env.pathExists (repoName url) = false →
      env.cloneExitCode = 0 →
      runScript env =
        ⟨0, ["Cloning repository " ++ url ++ " ..."] ++
              report (classify env.tree).1 (classify env.tree).2,
         [["git", "clone", "--depth", "1", url]]⟩) ∧
    (env.argv1 = some url → url ≠ "" → env.pathExists (repoName url) = true →
      env.pullExitCode = 0 →
      runScript env =
        ⟨0, ["Repository " ++ repoName url ++ " already exists. Pulling latest changes ..."] ++
              report (classify env.tree).1 (classify env.tree).2,
         [["git", "-C", repoName url, "pull"]]⟩) := by
  obtain ⟨a, pe, ce, pu, tr⟩ := env
  refine ⟨fun h => ?_, fun h h2 hex hc => ?_, fun h h2 hex hp => ?_,
          fun h h2 hex hc => ?_, fun h h2 hex hp => ?_⟩ <;> cases h
  · rfl
  · have hex' : pe (repoName url) = false := hex
    have hc' : ce ≠ 0 := hc
    simp [runScript, h2, hex', hc']
  · have hex' : pe (repoName url) = true := hex
    have hp' : pu ≠ 0 := hp
    simp [runScript, h2, hex', hp']
  · have hex' : pe (repoName url) = false := hex
    have hc' : ce = 0 := hc
    simp [runScript, h2, hex', hc']
  · have hex' : pe (repoName url) = true := hex
    have hp' : pu = 0 := hp
    simp [runScript, h2, hex', hp']

/-- C6 witness. -/
theorem script_exit_codes_check :
    runScript ⟨none, fun _ => false, 0, 0, []⟩ =
      ⟨1, ["Usage: python list_github_workflow_and_dependency_files.py <repo_url>"], []⟩ ∧
    runScript ⟨some "u", fun _ => false, 5, 0, []⟩ =
      ⟨2, ["Cloning repository " ++ "u" ++ " ...", "Failed to clone repository."],
       [["git", "clone", "--depth", "1", "u"]]⟩ ∧
    runScript ⟨some "u", fun _ => true, 0, 7, []⟩ =
      ⟨3, ["Repository " ++ repoName "u" ++ " already exists. Pulling latest changes ...",
           "Failed to pull latest changes."],
       [["git", "-C", repoName "u", "pull"]]⟩ ∧
    runScript ⟨some "u", fun _ => false, 0, 0, []⟩ =
      ⟨0, ["Cloning repository " ++ "u" ++ " ..."] ++
            report (classify ([] : List String)).1 (classify ([] : List String)).2,
       [["git", "clone", "--depth", "1", "u"]]⟩ :=
  ⟨(script_exit_codes ⟨none, fun _ => false, 0, 0, []⟩ "u").1 rfl,
   (script_exit_codes ⟨some "u", fun _ => false, 5, 0, []⟩ "u").2.1 rfl
     (by decide) rfl (by decide),
   (script_exit_codes ⟨some "u", fun _ => true, 0, 7, []⟩ "u").2.2.1 rfl
     (by decide) rfl (by decide),
   (script_exit_codes ⟨some "u", fun _ => false, 0, 0, []⟩ "u").2.2.2.1 rfl
     (by decide) rfl rfl⟩

/-- C1 counterexample: a tree whose only file is `.github/workflows/go.mod`
puts that path in the dependency-file sequence only; the workflow-file
sequence stays empty because `go.mod` ends in neither `.yml` nor `.yaml`. -/
theorem go_mod_not_in_workflow_seq :
    (classify [".github/workflows/go.mod"]).1 = [] ∧
    (classify [".github/workflows/go.mod"]).2 = [".github/workflows/go.mod"] := by
  exact ⟨rfl, rfl⟩

/-- C1 (amended): a file at `.github/workflows/go.mod` is placed in the
dependency-file sequence and not in the workflow-file sequence (its name
fails the `.yml`/`.yaml` extension check); the two membership checks are
nevertheless independent, and a dependency filename with a matching
extension under the workflow prefix, such as
`.github/workflows/environment.yml`, is placed in both sequences. -/
theorem go_mod_dependency_only (paths : List String)
    (hg : ".github/workflows/go.mod" ∈ paths) :
    ".github/workflows/go.mod" ∈ (classify paths).2 ∧
    ".github/workflows/go.mod" ∉ (classify paths).1 ∧
    (".github/workflows/environment.yml" ∈ paths →
      ".github/workflows/environment.yml" ∈ (classify paths).1 ∧
      ".github/workflows/environment.yml" ∈ (classify paths).2) := by
  refine ⟨?_, ?_, fun he => ⟨?_, ?_⟩⟩
  · rw [classify_snd_eq_filter]
    exact List.mem_filter.mpr ⟨hg, by decide⟩
  · rw [classify_fst_eq_filter]
    intro hmem
    exact absurd (List.mem_filter.mp hmem).2 (by decide)
  · rw [classify_fst_eq_filter]
    exact List.mem_filter.mpr ⟨he, by decide⟩
  · rw [classify_snd_eq_filter]
    exact List.mem_filter.mpr ⟨he, by decide⟩

/-- C1 witness. -/
theorem go_mod_dependency_only_check :
    ".github/workflows/go.mod" ∈
      (classify [".github/workflows/go.mod", ".github/workflows/environment.yml"]).2 ∧
    ".github/workflows/go.mod" ∉
      (classify [".github/workflows/go.mod", ".github/workflows/environment.yml"]).1 ∧
    (".github/workflows/environment.yml" ∈
        [".github/workflows/go.mod", ".github/workflows/environment.yml"] →
      ".github/workflows/environment.yml" ∈
        (classify [".github/workflows/go.mod", ".github/workflows/environment.yml"]).1 ∧
      ".github/workflows/environment.yml" ∈
        (classify [".github/workflows/go.mod", ".github/workflows/environment.yml"]).2) :=
  go_mod_dependency_only
    [".github/workflows/go.mod", ".github/workflows/environment.yml"] (by decide)

/-- C3 counterexample: the path `.github/workflows.yml` (a file sitting
directly in `.github`, not under `.github/workflows`) is placed in the
workflow-file sequence, although its first two path components are
`.github` and `workflows.yml`, not `.github` and `workflows`. -/
theorem workflow_seq_not_directory_scoped :
    ".github/workflows.yml" ∈ (classify [".github/workflows.yml"]).1 ∧
    pathComponents ".github/workflows.yml" = [".github", "workflows.yml"] ∧
    (pathComponents ".github/workflows.yml").take 2 ≠ [".github", "workflows"] := by
  refine ⟨by decide, by decide, by decide⟩

/-- C3 (amended): a relative path is placed in the workflow-file sequence
only if it starts with the literal string prefix `.github/workflows` and
its filename ends in `.yml` or `.yaml`; the prefix test is on the raw
string, so paths outside the directory `.github/workflows` whose text
merely begins with that prefix (such as `.github/workflows.yml`) also
qualify. -/
theorem workflow_seq_necessary_condition (paths : List String) (p : String)
    (h : p ∈ (classify paths).1) :
    pyStartswith p WORKFLOW_DIR = true ∧
    (pyEndswith (fileName p) ".yml" = true ∨ pyEndswith (fileName p) ".yaml" = true) := by
  rw [classify_fst_eq_filter] at h
  exact (isWorkflowFile_iff p).mp (List.mem_filter.mp h).2

/-- C3 witness. -/
theorem workflow_seq_necessary_condition_check :
    pyStartswith ".github/workflows.yml" WORKFLOW_DIR = true ∧
    (pyEndswith (fileName ".github/workflows.yml") ".yml" = true ∨
      pyEndswith (fileName ".github/workflows.yml") ".yaml" = true) :=
  workflow_seq_necessary_condition [".github/workflows.yml"] ".github/workflows.yml"
    (by decide)

/-- Occurrence test: `containsOcc x l` is `true` iff `x` occurs as a
contiguous sublist of `l`. -/
def containsOcc (old : List Char) : List Char → Bool
  | [] => isPrefixB old []
  | a :: as => isPrefixB old (a :: as) || containsOcc old as

theorem isPrefixB_refl (l : List Char) : isPrefixB l l = true := by
  induction l with
  | nil => rfl
  | cons a as ih => simp [isPrefixB, ih]

theorem isPrefixB_iff_exists (x y : List Char) :
    isPrefixB x y = true ↔ ∃ t, y = x ++ t := by
  induction x generalizing y with
  | nil => simp [isPrefixB]
  | cons a as ih =>
    cases y with
    | nil =>
      constructor
      · intro h
        simp [isPrefixB] at h
      · rintro ⟨t, ht⟩
        simp at ht
    | cons b bs =>
      constructor
      · intro h
        simp only [isPrefixB, Bool.and_eq_true, beq_iff_eq] at h
        obtain ⟨t, ht⟩ := (ih bs).mp h.2
        exact ⟨t, by simp [h.1, ht]⟩
      · rintro ⟨t, ht⟩
        simp only [List.cons_append, List.cons.injEq] at ht
        simp only [isPrefixB, Bool.and_eq_true, beq_iff_eq]
        exact ⟨ht.1.symm, (ih bs).mpr ⟨t, ht.2⟩⟩

theorem endsB_iff_exists (x l : List Char) :
    endsB x l = true ↔ ∃ s, l = s ++ x := by
  unfold endsB
  rw [isPrefixB_iff_exists]
  constructor
  · rintro ⟨t, ht⟩
    refine ⟨t.reverse, ?_⟩
    have h2 := congrArg List.reverse ht
    simpa using h2
  · rintro ⟨s, rfl⟩
    exact ⟨s.reverse, by simp⟩

theorem containsOcc_iff_exists (x l : List Char) :
    containsOcc x l = true ↔ ∃ s t, l = s ++ x ++ t := by
  induction l with
  | nil =>
    constructor
    · intro h
      cases x with
      | nil => exact ⟨[], [], rfl⟩
      | cons a as => simp [containsOcc, isPrefixB] at h
    · rintro ⟨s, t, hst⟩
      have h2 := hst.symm
      simp only [List.append_eq_nil, List.append_assoc] at h2
      rw [h2.2.1]
      rfl
  | cons a as ih =>
    simp only [containsOcc, Bool.or_eq_true, ih]
    constructor
    · rintro (hp | ⟨s, t, hst⟩)
      · obtain ⟨t, ht⟩ := (isPrefixB_iff_exists x (a :: as)).mp hp
        exact ⟨[], t, by simpa using ht⟩
      · exact ⟨a :: s, t, by simp [hst]⟩
    · rintro ⟨s, t, hst⟩
      cases s with
      | nil =>
        exact Or.inl ((isPrefixB_iff_exists x (a :: as)).mpr ⟨t, by simpa using hst⟩)
      | cons b bs =>
        simp only [List.cons_append, List.append_assoc, List.cons.injEq] at hst
        exact Or.inr ⟨bs, t, by simp [hst.2]⟩

theorem replaceAux_skip (old new : List Char) (l : List Char) :
    pyReplaceAux old new l.length l = [] := by
  induction l with
  | nil => rfl
  | cons a as ih => simpa [pyReplaceAux] using ih

theorem pyReplace_no_occ (old new : List Char) :
    ∀ l, containsOcc old l = false → pyReplace old new l = l := by
  intro l
  induction l with
  | nil => intro _; rfl
  | cons a as ih =>
    intro h
    simp only [containsOcc, Bool.or_eq_false_iff] at h
    show pyReplaceAux old new 0 (a :: as) = a :: as
    simp only [pyReplaceAux, h.1, Bool.false_eq_true, if_false]
    exact congrArg (a :: ·) (ih h.2)

theorem pyReplace_strip (old : List Char) (hne : old ≠ []) :
    ∀ s : List Char, containsOcc old (s ++ old).dropLast = false →
      pyReplace old [] (s ++ old) = s := by
  intro s
  induction s with
  | nil =>
    intro _
    cases old with
    | nil => exact absurd rfl hne
    | cons g gs =>
      show pyReplaceAux (g :: gs) [] 0 ([] ++ (g :: gs)) = []
      simp only [List.nil_append, pyReplaceAux, isPrefixB_refl, if_true]
      simpa using replaceAux_skip (g :: gs) [] gs
  | cons a s' ih =>
    intro h
    have hso : s' ++ old ≠ [] := by
      cases old with
      | nil => exact absurd rfl hne
      | cons g gs => simp
    have hp : isPrefixB old (a :: (s' ++ old)) = false := by
      cases hip : isPrefixB old (a :: (s' ++ old)) with
      | false => rfl
      | true =>
        exfalso
        obtain ⟨t, ht⟩ := (isPrefixB_iff_exists _ _).mp hip
        have htne : t ≠ [] := by
          intro h0
          subst h0
          have hlen := congrArg List.length ht
          simp at hlen
          omega
        have hocc : containsOcc old ((a :: s') ++ old).dropLast = true := by
          apply (containsOcc_iff_exists _ _).mpr
          refine ⟨[], t.dropLast, ?_⟩
          have h1 : (a :: s') ++ old = old ++ t := by simpa using ht
          rw [h1, List.dropLast_append_of_ne_nil _ htne]
          simp
        rw [h] at hocc
        exact absurd hocc (by decide)
    have hdes : containsOcc old (s' ++ old).dropLast = false := by
      have hcons : ((a :: s') ++ old).dropLast = a :: (s' ++ old).dropLast := by
        show ([a] ++ (s' ++ old)).dropLast = _
        rw [List.dropLast_append_of_ne_nil _ hso]
        rfl
      rw [hcons] at h
      simp only [containsOcc, Bool.or_eq_false_iff] at h
      exact h.2
    show pyReplaceAux old [] 0 ((a :: s') ++ old) = a :: s'
    have hshape : (a :: s') ++ old = a :: (s' ++ old) := rfl
    rw [hshape]
    simp only [pyReplaceAux, hp, Bool.false_eq_true, if_false]
    exact congrArg (a :: ·) (ih hdes)

theorem replace_git_spec (seg : List Char)
    (h : containsOcc ".git".data seg.dropLast = false) :
    pyReplace ".git".data [] seg =
      if endsB ".git".data seg then seg.take (seg.length - 4) else seg := by
  by_cases he : endsB ".git".data seg = true
  · obtain ⟨s, rfl⟩ := (endsB_iff_exists _ _).mp he
    rw [if_pos he, pyReplace_strip ".git".data (by decide) s h]
    have h4 : (".git".data).length = 4 := by decide
    rw [List.length_append, h4, Nat.add_sub_cancel, List.take_left]
  · rw [if_neg he]
    apply pyReplace_no_occ
    cases hc : containsOcc ".git".data seg with
    | false => rfl
    | true =>
      exfalso
      obtain ⟨s, t, hst⟩ := (containsOcc_iff_exists _ _).mp hc
      cases t with
      | nil =>
        exact he ((endsB_iff_exists _ _).mpr ⟨s, by simpa using hst⟩)
      | cons c cs =>
        have hocc : containsOcc ".git".data seg.dropLast = true := by
          apply (containsOcc_iff_exists _ _).mpr
          refine ⟨s, (c :: cs).dropLast, ?_⟩
          rw [hst, List.dropLast_append_of_ne_nil _ (by simp : (c :: cs) ≠ [])]
        simp [h] at hocc

/-- C2 counterexample: on the URL `https://example.com/a.gitb` the code
derives `ab` (the `replace` removes the inner `.git` occurrence), while
removing `.git` only as a suffix would leave `a.gitb` unchanged; so the
derivation is not a suffix-only removal. -/
theorem repoName_not_suffix_only :
    repoName "https://example.com/a.gitb" = "ab" ∧
    specLocalName "https://example.com/a.gitb" = "a.gitb" ∧
    repoName "https://example.com/a.gitb" ≠ specLocalName "https://example.com/a.gitb" := by
  refine ⟨by decide, by decide, by decide⟩

/-- C2 (amended): acquire derives the local directory name as the URL's
final path segment (after discarding trailing slashes) with every
occurrence of the substring `.git` removed, not only a suffix occurrence;
whenever `.git` occurs in the final segment at most as a suffix, this
coincides with removing just the `.git` suffix, and in particular the URL
`https://example.com/foo.git` yields local directory name `foo`. -/
theorem repoName_agrees_with_suffix_strip (url : String)
    (h : containsOcc ".git".data
        ((splitOnChar '/' (pyRstrip '/' url.data)).getLastD []).dropLast = false) :
    repoName url = specLocalName url ∧
    repoName "https://example.com/foo.git" = "foo" := by
  refine ⟨?_, by decide⟩
  simp only [repoName, specLocalName]
  rw [replace_git_spec _ h, apply_ite String.mk]

/-- C2 witness. -/
theorem repoName_agrees_with_suffix_strip_check :
    repoName "https://example.com/foo.git" = specLocalName "https://example.com/foo.git" ∧
    repoName "https://example.com/foo.git" = "foo" :=
  repoName_agrees_with_suffix_strip "https://example.com/foo.git" (by decide)
